import Mathlib

/-!
Verification of the godocdown rendering pipeline (`godocdown/main.go`,
`godocdown/render.go`).

Strings are modelled as `List Char` (`Str`).  Go string indexing and slicing
that can panic is modelled with `Option`: `none` is an out-of-range panic.
Each definition below embeds the Go function of the same (or clearly related)
name; the Go regular-expression transforms that are line-anchored
(`(?m)^...$`) are embedded as per-line maps over the list of lines.
-/

namespace Godocdown

abbrev Str := List Char

/-- The characters matched by Go `[ \t]` character classes. -/
def isHT (c : Char) : Bool := c == ' ' || c == '\t'

/-- ASCII part of Go `unicode.IsSpace`, used by `strings.TrimSpace` /
`bytes.TrimSpace` (the inputs we reason about are ASCII). -/
def isWs (c : Char) : Bool :=
  c == ' ' || c == '\t' || c == '\n' || c == '\r' || c == '\x0b' || c == '\x0c'

/-- The backtick character (U+0060). -/
def btChar : Char := Char.ofNat 96

/-- Number of backticks in a string; a string contains a triple-backtick
fence only if this is positive. -/
def bt (s : Str) : Nat := s.countP (fun c => c == btChar)

/-- Whether the string contains three consecutive backticks (a
triple-backtick fence delimiter). -/
def hasTripleBt : Str → Bool
  | c1 :: c2 :: c3 :: rest =>
    (c1 == btChar && c2 == btChar && c3 == btChar) ||
      hasTripleBt (c2 :: c3 :: rest)
  | _ => false

/-- Split on newline characters; mirrors how Go's `(?m)` line-anchored
regexps partition a string into lines (a string with no newline is one line,
`"a\nb"` is two). -/
def splitNl : Str → List Str
  | [] => [[]]
  | c :: rest =>
    if c = '\n' then [] :: splitNl rest
    else
      match splitNl rest with
      | [] => [[c]]
      | ℓ :: ls => (c :: ℓ) :: ls

/-- Re-join lines with newlines (inverse of `splitNl`). -/
def joinNl : List Str → Str
  | [] => []
  | [ℓ] => ℓ
  | ℓ :: ℓ' :: ls => ℓ ++ '\n' :: joinNl (ℓ' :: ls)

/-- `bytes.TrimSpace` / `strings.TrimSpace` (ASCII whitespace). -/
def trimWs (s : Str) : Str :=
  ((s.dropWhile isWs).reverse.dropWhile isWs).reverse

/-- `strings.Trim(target, "\n")`: strip leading and trailing newlines. -/
def trimNlEnds (s : Str) : Str :=
  ((s.dropWhile (fun c => c == '\n')).reverse.dropWhile
    (fun c => c == '\n')).reverse

/-! ### Text transform utilities from `main.go` -/

/-- `spacer(width)`: `strings.Repeat(" ", width)`. -/
def spacer (width : Nat) : Str := List.replicate width ' '

/-- `indent(target, indent)`: the regexp `(?m)^([^\n])` prefixes every
non-empty line of `target` with the indent string. -/
def indent (target ind : Str) : Str :=
  joinNl ((splitNl target).map (fun ℓ => if ℓ = [] then [] else ind ++ ℓ))

/-- The character class `[A-Za-z0-9_-]` of the synopsis-heading regexps. -/
def isWordChar (c : Char) : Bool :=
  (c ≥ 'A' && c ≤ 'Z') || (c ≥ 'a' && c ≤ 'z') || (c ≥ '0' && c ≤ '9') ||
    c == '_' || c == '-'

/-- `[A-Z]`. -/
def isUpperAZ (c : Char) : Bool := c ≥ 'A' && c ≤ 'Z'

mutual
/-- State inside a heading token: consume word characters, then either the
end of the line or a `[ \t]+` gap before the next token. -/
def tokCont (first : Char → Bool) : Str → Bool
  | [] => true
  | c :: rest =>
    if isWordChar c then tokCont first rest
    else if isHT c then tokGap first rest
    else false
/-- State inside a `[ \t]+` gap: more gap characters, then a new token whose
first character satisfies `first`. -/
def tokGap (first : Char → Bool) : Str → Bool
  | [] => false
  | c :: rest =>
    if isHT c then tokGap first rest
    else if first c && isWordChar c then tokCont first rest
    else false
end

/-- Full-line match for a token line `(?:tok)(?:[ \t]+tok)*` where a token
starts with a character satisfying `first` followed by word characters. -/
def matchesTokenLine (first : Char → Bool) (ℓ : Str) : Bool :=
  match ℓ with
  | [] => false
  | c :: rest => first c && isWordChar c && tokCont first rest

/-- `synopsisHeading1Word_Regexp` body `([A-Za-z0-9_-]+)` as a full-line
matcher. -/
def matches1Word (ℓ : Str) : Bool := !ℓ.isEmpty && ℓ.all isWordChar

/-- `synopsisHeadingTitleCase_Regexp` body
`((?:[A-Z][A-Za-z0-9_-]*)(?:[ \t]+[A-Z][A-Za-z0-9_-]*)*)` as a full-line
matcher. -/
def matchesTitleCase (ℓ : Str) : Bool := matchesTokenLine isUpperAZ ℓ

/-- `synopsisHeadingTitle_Regexp` body
`((?:[A-Za-z0-9_-]+)(?:[ \t]+[A-Za-z0-9_-]+)*)` as a full-line matcher. -/
def matchesTitle (ℓ : Str) : Bool := matchesTokenLine isWordChar ℓ

/-- `synopsisHeadingTitleCase1Word_Regexp`: union of the 1Word and TitleCase
patterns. -/
def matchesTitleCase1Word (ℓ : Str) : Bool :=
  matches1Word ℓ || matchesTitleCase ℓ

/-- The replacement applied by `headifySynopsis` to one line: a full-line
pattern match is prefixed with the heading marker and one space. -/
def headifyLine (matcher : Str → Bool) (header : Str) (ℓ : Str) : Str :=
  if matcher ℓ then header ++ ' ' :: ℓ else ℓ

/-- `headifySynopsis`: `detect.ReplaceAllStringFunc` with a line-anchored
`(?m)^...$` pattern replaces exactly the lines that match the pattern in
full, so it is the per-line map of `headifyLine` (`main.go:264`). -/
def headifySynopsis (matcher : Str → Bool) (header : Str) (target : Str) :
    Str :=
  joinNl ((splitNl target).map (headifyLine matcher header))

/-- `exampleNames` (`main.go:274`): `strings.SplitN(name, "_", 2)`; the
second component, when present, has its underscores replaced by spaces and is
wrapped in `" (" ... ")"`. -/
def exampleNames (name : Str) : Str × Str :=
  if name.contains '_' then
    let base := name.takeWhile (fun c => !(c == '_'))
    (base, ' ' :: '(' ::
      ((name.drop (base.length + 1)).map
        (fun c => if c == '_' then ' ' else c)) ++ [')'])
  else (name, [])

/-- The root used to group examples: `strings.SplitN(e.Name, "_", 2)[0]`. -/
def exampleRoot (name : Str) : Str := name.takeWhile (fun c => !(c == '_'))

/-- One line of `takeOut7f` (`match_7f = (?m)[\t ]*\x7f[\t ]*$`): remove a
trailing run of tabs/spaces, one `\x7f`, and the tabs/spaces before it. -/
def takeOut7fLine (ℓ : Str) : Str :=
  match (ℓ.reverse.dropWhile isHT) with
  | c :: rest => if c = '\x7f' then (rest.dropWhile isHT).reverse else ℓ
  | [] => ℓ

/-- `takeOut7f` (`main.go:218`): the line-anchored replacement applied to
every line. -/
def takeOut7f (s : Str) : Str := joinNl ((splitNl s).map takeOut7fLine)

/-- `filterText` (`main.go:307`). -/
def filterText (s : Str) : Str := takeOut7f s

/-! ### `dedent.Dedent` (github.com/lithammer/dedent)

The library removes the longest common leading `[ \t]` margin: it first blanks
whitespace-only lines (`(?m)^[ \t]+$` → empty), collects the leading-whitespace
margins of all lines that carry a non-whitespace character, folds them to the
common margin (prefix comparison, empty on incompatibility), and strips that
margin from the start of every line that begins with it. -/

def dedentMarginLoop (margin : Str) : List Str → Str
  | [] => margin
  | ind :: rest =>
    if margin.isPrefixOf ind then dedentMarginLoop margin rest
    else if ind.isPrefixOf margin then dedentMarginLoop ind rest
    else []

def dedent (s : Str) : Str :=
  let ls := (splitNl s).map
    (fun ℓ => if !ℓ.isEmpty && ℓ.all isHT then [] else ℓ)
  let indents := ls.filterMap
    (fun ℓ => if ℓ.any (fun c => !isHT c) then some (ℓ.takeWhile isHT)
              else none)
  let margin :=
    match indents with
    | [] => []
    | m :: ms => dedentMarginLoop m ms
  if margin.isEmpty then joinNl ls
  else joinNl (ls.map
    (fun ℓ => if margin.isPrefixOf ℓ then ℓ.drop margin.length else ℓ))

/-- The fenced block `fmt.Sprintf("```go\n%s\n```", target)`. -/
def fenceGo (body : Str) : Str :=
  ("```go\n").data ++ body ++ ("\n```").data

/-- `indentCode` (`main.go:250`).  With `-plain` every line of
`target + "\n"` is indented by four spaces.  Otherwise the function indexes
`target[0]` and `target[len(target)-1]` — a panic (`none`) on the empty
string — strips one enclosing `{`/`}` pair, dedents, trims newlines and
wraps in a ```` ```go ```` fence. -/
def indentCode (plain : Bool) (target : Str) : Option Str :=
  match plain with
  | true => some (indent (target ++ ['\n']) (spacer 4))
  | false =>
    match target with
    | [] => none
    | c :: _ =>
      let t := if (c == '{') && (target.getLast? == some '}') then
                 (target.drop 1).take (target.length - 2)
               else target
      some (fenceGo (trimNlEnds (dedent t)))

/-- The import-path override (`main.go:421`): when `.godocdown.import` is
readable its contents replace the computed import path by
`strings.TrimSpace(strings.Split(content, "\n")[0])` — the *first* line,
trimmed. -/
def overrideImportPath (computed : Str) (file : Option Str) : Str :=
  match file with
  | none => computed
  | some content => trimWs (content.takeWhile (fun c => !(c == '\n')))

/-! ### Package selection (`loadDocument`, `main.go:433-467`)

The loop ranges over `pkgSet`, a Go `map[string]*ast.Package` keyed by the
declared package name, so the candidates are pairwise distinct names and the
iteration order is unspecified.  The loop body is embedded as a fold. -/

def mainName : Str := ("main").data
def documentationName : Str := ("documentation").data

structure SelState where
  isCommand : Bool
  name : Str
  pkg : Option Str
  testFiles : Option Str
  deriving DecidableEq

/-- One iteration of the selection switch.  `dirBase` is the base name of the
target directory (`filepath.Split(absPath)`); a candidate is identified by its
package name. -/
def choosePackageStep (dirBase : Str) (st : SelState) (pkgName : Str) :
    SelState :=
  if pkgName = mainName then
    if st.isCommand || !st.name.isEmpty then st
    else { st with isCommand := true, name := dirBase, pkg := some pkgName }
  else if pkgName = documentationName then
    { st with isCommand := true, name := dirBase, pkg := some pkgName }
  else
    { st with
      name := pkgName, pkg := some pkgName, testFiles := some pkgName }

/-- The whole selection loop, started from
`isCommand=false, name="", pkg=nil, testFiles=nil`. -/
def choosePackage (dirBase : Str) (cands : List Str) : SelState :=
  cands.foldl (choosePackageStep dirBase) ⟨false, [], none, none⟩

/-! ### The documentation model (`go/doc` values as seen by the renderer)

`sourceOfNode` output is carried as the `declSrc`/`codeSrc` fields: the
renderer only ever consumes declarations through `sourceOfNode`, so a
declaration is modelled by its printed source text. -/

structure Value where
  declSrc : Str
  doc : Str

structure Func where
  name : Str
  recv : Str
  declSrc : Str
  doc : Str

structure Example where
  name : Str
  codeSrc : Str
  doc : Str
  output : Str

/-- `doc.Type` (`Type` is reserved in Lean). -/
structure TypeD where
  name : Str
  declSrc : Str
  doc : Str
  consts : List Value
  vars : List Value
  funcs : List Func
  methods : List Func

structure Package where
  name : Str
  doc : Str
  consts : List Value
  vars : List Value
  funcs : List Func
  types : List TypeD

structure Document where
  name : Str
  pkg : Package
  isCommand : Bool
  importPath : Str
  examples : List Example

/-- The `-no-funcs` filtering step (`main.go:693-699`): clear the package's
function list and every type's function and method lists. -/
def stripFuncs (p : Package) : Package :=
  { p with
    funcs := [],
    types := p.types.map (fun t => { t with funcs := [], methods := [] }) }

/-! ### Renderer (`render.go`) -/

/-- Modelled from the spec: `formatIndent` is called by `render.go` but its
definition is not among the provided source files (the copy in `main.go`
lines 222-232 is commented out).  Spec §4.3 says the doc text is emitted
verbatim apart from indentation/wrapping, so it is modelled as the identity
on text. -/
def formatIndent (s : Str) : Str := s

/-- The default heading marker (`DefaultStyle`, all header fields). -/
def defaultHeader : Str := ("####").data

/-- The example-code preparation of `renderExample` (`render.go:55-63`):
index `code[0]` (panic on empty source), slice `code[3:len(code)-3]` when the
source starts with `{` (panic unless `len ≥ 6`), dedent, then fence with
`indentCode`. -/
def renderExampleCode (plain : Bool) (codeSrc : Str) : Option Str :=
  match codeSrc with
  | [] => none
  | c :: _ =>
    if c == '{' then
      if 6 ≤ codeSrc.length then
        indentCode plain (dedent ((codeSrc.drop 3).take (codeSrc.length - 6)))
      else none
    else indentCode plain (dedent codeSrc)

/-- `renderExample` (`render.go:55-71`): the full `<details>` block.  Note the
`Output` section is wrapped in a literal ```` ``` ```` fence in the format
string itself, independent of the `-plain` flag. -/
def renderExample (plain : Bool) (ex : Example) : Option Str :=
  (renderExampleCode plain ex.codeSrc).map (fun code =>
    ("<a name='Example").data ++ ex.name ++
      ("'></a><details><summary>Example</summary><p>\n\n").data ++
      formatIndent (filterText ex.doc) ++ '\n' :: code ++
      ("\n\nOutput:\n```\n").data ++ ex.output ++
      ("```\n</p></details>\n\n").data)

def renderExamples (plain : Bool) : List Example → Option Str
  | [] => some []
  | e :: rest =>
    match renderExample plain e, renderExamples plain rest with
    | some c, some r => some (c ++ r)
    | _, _ => none

/-- `renderConstantSectionTo` / `renderVariableSectionTo` (`render.go:11-21`):
`"%s\n%s\n"` of the fenced declaration and the formatted doc. -/
def renderValueSection (plain : Bool) : List Value → Option Str
  | [] => some []
  | v :: rest =>
    match indentCode plain v.declSrc, renderValueSection plain rest with
    | some c, some r =>
      some (c ++ '\n' :: formatIndent (filterText v.doc) ++ '\n' :: r)
    | _, _ => none

/-- `examples[name]`: the grouping map of `renderUsageTo` keyed by the first
underscore-separated segment of the example name. -/
def funcExamplesFor (exs : Option (List Example)) (fname : Str) :
    List Example :=
  match exs with
  | none => []
  | some es => es.filter (fun e => exampleRoot e.name == fname)

/-- `renderFunctionSectionTo` (`render.go:23-51`); `exs = none` embeds the
`nil` examples map passed for methods. -/
def renderFunctionSection (plain : Bool) (header : Str)
    (exs : Option (List Example)) : List Func → Option Str
  | [] => some []
  | f :: rest =>
    match indentCode plain f.declSrc,
        renderExamples plain (funcExamplesFor exs f.name),
        renderFunctionSection plain header exs rest with
    | some decl, some exPart, some r =>
      some (header ++ (" <a name='").data ++ f.name ++
        ("'></a> func ").data ++
        (if f.recv.isEmpty then [' '] else '(' :: f.recv ++ (") ").data) ++
        '[' :: f.name ++ ("]()\n\n").data ++ decl ++ '\n' ::
        formatIndent (filterText f.doc) ++ '\n' :: exPart ++ r)
    | _, _, _ => none

/-- `renderTypeSectionTo` (`render.go:73-93`): type header with anchor,
fenced declaration, doc, the type's examples, then nested constants,
variables, functions (with the examples map) and methods (`nil` map). -/
def renderTypeSection (plain : Bool) (header : Str) (exs : List Example) :
    List TypeD → Option Str
  | [] => some []
  | t :: rest =>
    match indentCode plain t.declSrc,
        renderExamples plain
          (exs.filter (fun e => exampleRoot e.name == t.name)),
        renderValueSection plain t.consts,
        renderValueSection plain t.vars,
        renderFunctionSection plain header (some exs) t.funcs,
        renderFunctionSection plain header none t.methods,
        renderTypeSection plain header exs rest with
    | some decl, some exPart, some cs, some vs, some fs, some ms, some r =>
      some (header ++ (" <a name='").data ++ t.name ++
        ("'></a>type [").data ++ t.name ++ ("]()\n\n").data ++ decl ++
        ("\n\n").data ++ formatIndent (filterText t.doc) ++ '\n' ::
        exPart ++ cs ++ vs ++ fs ++ ms ++ r)
    | _, _, _, _, _, _, _ => none

/-- `renderFunctionIndexTo` (`render.go:147-157`). -/
def renderFunctionIndex (inType : Bool) : List Func → Str
  | [] => []
  | f :: rest =>
    (if inType then ("    ").data else []) ++ (" - [").data ++ f.declSrc ++
      ("](#").data ++ f.name ++ (")\n").data ++ renderFunctionIndex inType rest

/-- `renderTypeIndexTo` (`render.go:159-164`). -/
def renderTypeIndex : List TypeD → Str
  | [] => []
  | t :: rest =>
    (" - [type ").data ++ t.name ++ ("](#").data ++ t.name ++ (")\n").data ++
      renderFunctionIndex true t.funcs ++ renderTypeIndex rest

/-- `renderIndex` (`render.go:166-170`). -/
def renderIndex (d : Document) : Str :=
  renderFunctionIndex false d.pkg.funcs ++ renderTypeIndex d.pkg.types ++
    ['\n']

/-- `renderHeaderTo` (`render.go:95-106`) with the default style
(`IncludeImport = true`). -/
def renderHeader (d : Document) : Str :=
  ("# ").data ++ d.name ++ ("\n--\n").data ++
    (if !d.isCommand && !d.importPath.isEmpty then
      spacer 4 ++ ("import \"").data ++ d.importPath ++ ("\"\n\n").data
    else [])

/-- `renderSynopsisTo` (`render.go:108-110`) with the default heading
strategy `TitleCase1Word` and marker `####`. -/
def renderSynopsis (d : Document) : Str :=
  headifySynopsis matchesTitleCase1Word defaultHeader
    (formatIndent (filterText d.pkg.doc)) ++ ['\n']

/-- `renderUsageTo` (`render.go:112-139`): usage header, index, constants,
variables, functions, types. -/
def renderUsage (plain : Bool) (d : Document) : Option Str :=
  match renderValueSection plain d.pkg.consts,
      renderValueSection plain d.pkg.vars,
      renderFunctionSection plain defaultHeader (some d.examples)
        d.pkg.funcs,
      renderTypeSection plain defaultHeader d.examples d.pkg.types with
  | some cs, some vs, some fs, some ts =>
    some (("#### Index\n\n").data ++ renderIndex d ++ cs ++ vs ++ fs ++ ts)
  | _, _, _, _ => none

/-- `EmitTo` + the final `strings.TrimSpace` of `main` (`main.go:507-521`,
`739`), with the default style (no trailing signature): header, synopsis,
and — only for non-commands — the usage section. -/
def renderDocument (plain : Bool) (d : Document) : Option Str :=
  if d.isCommand then
    some (trimWs (renderHeader d ++ renderSynopsis d))
  else
    match renderUsage plain d with
    | some u => some (trimWs (renderHeader d ++ renderSynopsis d ++ u))
    | none => none

/-! ### The output step of `main` (`main.go:740-748`) -/

structure RunOutcome where
  exitCode : Nat
  stderrMsg : Str
  stdoutDoc : Str
  fileWritten : Bool
  deriving DecidableEq

/-- The tail of `main`: write to stdout for `""`/`"-"`, otherwise
`os.Create` + `fmt.Fprintln`.  The error check after `os.Create` has an
empty body (`if err != nil { }`), the deferred `Close` and the `Fprintln`
error are discarded, so on a failing create the run still terminates
normally with exit code 0 and nothing on stderr. -/
def writeOutput (flagOutput documentation : Str) (createFails : Bool) :
    RunOutcome :=
  if flagOutput.isEmpty || flagOutput == ('-' :: []) then
    ⟨0, [], documentation ++ ['\n'], false⟩
  else if createFails then
    ⟨0, [], [], false⟩
  else
    ⟨0, [], documentation ++ ['\n'], true⟩

/-! ### Backtick accounting for the renderer -/

/-- Backtick count of the input strings of one value group. -/
def valueBt (v : Value) : Nat := bt v.declSrc + bt v.doc

/-- Backtick count of the input strings of one function. -/
def funcBt (f : Func) : Nat :=
  bt f.name + bt f.recv + bt f.declSrc + bt f.doc

/-- Backtick count of the input strings of one type with its nested
declarations. -/
def typeBt (t : TypeD) : Nat :=
  bt t.name + bt t.declSrc + bt t.doc + (t.consts.map valueBt).sum +
    (t.vars.map valueBt).sum + (t.funcs.map funcBt).sum +
    (t.methods.map funcBt).sum

/-- Backtick count of all input strings of a package. -/
def pkgBt (p : Package) : Nat :=
  bt p.doc + (p.consts.map valueBt).sum + (p.vars.map valueBt).sum +
    (p.funcs.map funcBt).sum + (p.types.map typeBt).sum

/-- Backtick count of all input strings of a document. -/
def docBt (d : Document) : Nat := bt d.name + bt d.importPath + pkgBt d.pkg

/-- Number of fenced declarations a type contributes: its own declaration
plus nested constants, variables, functions and methods. -/
def typeDeclCount (t : TypeD) : Nat :=
  1 + t.consts.length + t.vars.length + t.funcs.length + t.methods.length

/-- Number of declarations rendered as code blocks in the usage section. -/
def numDecls (d : Document) : Nat :=
  d.pkg.consts.length + d.pkg.vars.length + d.pkg.funcs.length +
    (d.pkg.types.map typeDeclCount).sum

/-- A document with one function and one example attached to it, no
backticks in any input (used against claim C3). -/
def docWithExample : Document :=
  { name := ("widgets").data
    pkg := { name := ("widgets").data
             doc := []
             consts := []
             vars := []
             funcs := [⟨("Foo").data, [], ("func Foo()").data, []⟩]
             types := [] }
    isCommand := false
    importPath := ("m/w").data
    examples := [⟨("Foo_x").data, ("{ return }").data, [],
      ("ok\n").data⟩] }

/-- A document with a single constant declaration, no examples, and no
backticks in any input. -/
def docPlainConst : Document :=
  { name := ("widgets").data
    pkg := { name := ("widgets").data
             doc := ("Overview").data
             consts := [⟨("const A = 1").data, ("a constant").data⟩]
             vars := []
             funcs := []
             types := [] }
    isCommand := false
    importPath := ("m/w").data
    examples := [] }

theorem splitNl_ne_nil (s : Str) : splitNl s ≠ [] := by
  cases s with
  | nil => simp [splitNl]
  | cons c rest =>
    simp only [splitNl]
    split
    · simp
    · split <;> simp

theorem not_nl_mem_of_mem_splitNl {s : Str} {ℓ : Str} (h : ℓ ∈ splitNl s) :
    '\n' ∉ ℓ := by
  induction s generalizing ℓ with
  | nil => simp [splitNl] at h; simp [h]
  | cons c rest ih =>
    simp only [splitNl] at h
    split at h
    · rcases List.mem_cons.mp h with h' | h'
      · simp [h']
      · exact ih h'
    · rename_i hc
      rcases hsp : splitNl rest with _ | ⟨ℓ₀, ls⟩
      · exact absurd hsp (splitNl_ne_nil rest)
      · rw [hsp] at h
        rcases List.mem_cons.mp h with h' | h'
        · subst h'
          intro hmem
          rcases List.mem_cons.mp hmem with h'' | h''
          · exact hc h''.symm
          · exact (ih (hsp ▸ List.mem_cons_self ℓ₀ ls)) h''
        · exact ih (hsp ▸ List.mem_cons_of_mem ℓ₀ h')

theorem joinNl_splitNl (s : Str) : joinNl (splitNl s) = s := by
  induction s with
  | nil => simp [splitNl, joinNl]
  | cons c rest ih =>
    simp only [splitNl]
    split
    · rename_i hc
      subst hc
      rcases hsp : splitNl rest with _ | ⟨ℓ₀, ls⟩
      · exact absurd hsp (splitNl_ne_nil rest)
      · rw [hsp] at ih
        simp [joinNl, ih]
    · rcases hsp : splitNl rest with _ | ⟨ℓ₀, ls⟩
      · exact absurd hsp (splitNl_ne_nil rest)
      · rw [hsp] at ih
        cases ls with
        | nil => simp [joinNl] at ih ⊢; simp [ih]
        | cons ℓ₁ ls' => simp [joinNl] at ih ⊢; simp [ih]

theorem splitNl_no_nl {ℓ : Str} (h : '\n' ∉ ℓ) : splitNl ℓ = [ℓ] := by
  induction ℓ with
  | nil => simp [splitNl]
  | cons c rest ih =>
    simp only [splitNl]
    have hc : ¬ c = '\n' := fun hc => h (hc ▸ List.mem_cons_self c rest)
    rw [if_neg hc, ih (fun hm => h (List.mem_cons_of_mem c hm))]

theorem splitNl_append_no_nl {ℓ t : Str} (h : '\n' ∉ ℓ) :
    splitNl (ℓ ++ '\n' :: t) = ℓ :: splitNl t := by
  induction ℓ with
  | nil => simp [splitNl]
  | cons c rest ih =>
    have hc : ¬ c = '\n' := fun hc => h (hc ▸ List.mem_cons_self c rest)
    have := ih (fun hm => h (List.mem_cons_of_mem c hm))
    simp only [List.cons_append, splitNl, if_neg hc, List.append_eq, this]

theorem splitNl_joinNl {ls : List Str} (hne : ls ≠ [])
    (h : ∀ ℓ ∈ ls, '\n' ∉ ℓ) : splitNl (joinNl ls) = ls := by
  induction ls with
  | nil => exact absurd rfl hne
  | cons ℓ₀ ls ih =>
    cases ls with
    | nil =>
      simp only [joinNl]
      exact splitNl_no_nl (h ℓ₀ (List.mem_cons_self ℓ₀ []))
    | cons ℓ₁ ls' =>
      simp only [joinNl]
      rw [splitNl_append_no_nl (h ℓ₀ (List.mem_cons_self _ _))]
      rw [ih (by simp) (fun ℓ hm => h ℓ (List.mem_cons_of_mem ℓ₀ hm))]

theorem bt_append (a b : Str) : bt (a ++ b) = bt a + bt b :=
  List.countP_append _ a b

theorem bt_joinNl (ls : List Str) :
    bt (joinNl ls) = (ls.map bt).sum := by
  induction ls with
  | nil => simp [joinNl, bt]
  | cons ℓ₀ ls ih =>
    cases ls with
    | nil => simp [joinNl]
    | cons ℓ₁ ls' =>
      simp only [joinNl] at ih ⊢
      rw [bt_append]
      have : bt ('\n' :: joinNl (ℓ₁ :: ls')) = bt (joinNl (ℓ₁ :: ls')) := by
        simp [bt, List.countP_cons]
        intro h
        exact absurd (congrArg Char.toNat h) (by decide)
      rw [this, ih]
      simp [List.map_cons, List.sum_cons, Nat.add_assoc]

theorem bt_splitNl_sum (s : Str) : ((splitNl s).map bt).sum = bt s := by
  conv_rhs => rw [← joinNl_splitNl s]
  rw [bt_joinNl]

theorem bt_dropWhile_eq {p : Char → Bool}
    (hp : ∀ c, p c = true → (c == btChar) = false) (l : Str) :
    bt (l.dropWhile p) = bt l := by
  induction l with
  | nil => rfl
  | cons c rest ih =>
    by_cases hc : p c = true
    · rw [List.dropWhile_cons_of_pos hc]
      simp [bt, List.countP_cons, hp c hc] at ih ⊢
      exact ih
    · rw [List.dropWhile_cons_of_neg hc]

theorem bt_reverse (l : Str) : bt l.reverse = bt l :=
  (List.reverse_perm l).countP_eq _

theorem isWs_ne_bt : ∀ c, isWs c = true → (c == btChar) = false := by
  intro c h
  simp only [isWs, Bool.or_eq_true, beq_iff_eq] at h
  rcases h with ((((h | h) | h) | h) | h) | h <;> subst h <;> decide

theorem isHT_ne_bt : ∀ c, isHT c = true → (c == btChar) = false := by
  intro c h
  simp only [isHT, Bool.or_eq_true, beq_iff_eq] at h
  rcases h with h | h <;> subst h <;> decide

theorem bt_trimWs (s : Str) : bt (trimWs s) = bt s := by
  unfold trimWs
  rw [bt_reverse, bt_dropWhile_eq isWs_ne_bt, bt_reverse,
    bt_dropWhile_eq isWs_ne_bt]

theorem bt_trimNlEnds (s : Str) : bt (trimNlEnds s) = bt s := by
  have h : ∀ c, (c == '\n') = true → (c == btChar) = false := by
    intro c hc
    rw [beq_iff_eq] at hc
    subst hc
    decide
  unfold trimNlEnds
  rw [bt_reverse, bt_dropWhile_eq h, bt_reverse, bt_dropWhile_eq h]

theorem bt_indent {ind : Str} (hind : bt ind = 0) (target : Str) :
    bt (indent target ind) = bt target := by
  unfold indent
  rw [bt_joinNl, List.map_map]
  have : ∀ ℓ ∈ splitNl target,
      (bt ∘ fun ℓ => if ℓ = [] then [] else ind ++ ℓ) ℓ = bt ℓ := by
    intro ℓ _
    by_cases h : ℓ = []
    · simp [h]
    · simp only [Function.comp_apply, if_neg h, bt_append, hind, Nat.zero_add]
  rw [List.map_congr_left this, bt_splitNl_sum]

theorem bt_headifySynopsis {matcher : Str → Bool} {header : Str}
    (hh : bt header = 0) (target : Str) :
    bt (headifySynopsis matcher header target) = bt target := by
  unfold headifySynopsis
  rw [bt_joinNl, List.map_map]
  have : ∀ ℓ ∈ splitNl target,
      (bt ∘ headifyLine matcher header) ℓ = bt ℓ := by
    intro ℓ _
    unfold headifyLine
    by_cases h : matcher ℓ = true
    · simp only [Function.comp_apply, if_pos h, bt_append, hh, Nat.zero_add]
      simp [bt, List.countP_cons]
      intro hsp
      exact absurd (congrArg Char.toNat hsp) (by decide)
    · simp only [Function.comp_apply, if_neg h]
  rw [List.map_congr_left this, bt_splitNl_sum]

theorem bt_takeOut7fLine (ℓ : Str) : bt (takeOut7fLine ℓ) = bt ℓ := by
  unfold takeOut7fLine
  rcases h : ℓ.reverse.dropWhile isHT with _ | ⟨c, rest⟩
  · rfl
  · show bt (if c = '\x7f' then (rest.dropWhile isHT).reverse else ℓ) = bt ℓ
    by_cases hc : c = '\x7f'
    · rw [if_pos hc]
      have h1 : bt ℓ = bt (c :: rest) := by
        rw [← h, bt_dropWhile_eq isHT_ne_bt, bt_reverse]
      have h2 : bt (c :: rest) = bt rest := by
        subst hc
        simp [bt, List.countP_cons]
        intro hx
        exact absurd (congrArg Char.toNat hx) (by decide)
      rw [bt_reverse, bt_dropWhile_eq isHT_ne_bt, h1, h2]
    · rw [if_neg hc]

theorem bt_filterText (s : Str) : bt (filterText s) = bt s := by
  unfold filterText takeOut7f
  rw [bt_joinNl, List.map_map]
  have : ∀ ℓ ∈ splitNl s, (bt ∘ takeOut7fLine) ℓ = bt ℓ := fun ℓ _ =>
    bt_takeOut7fLine ℓ
  rw [List.map_congr_left this, bt_splitNl_sum]

theorem bt_spacer (w : Nat) : bt (spacer w) = 0 := by
  simp only [bt, spacer]
  rw [List.countP_eq_zero]
  intro a ha
  rw [List.eq_of_mem_replicate ha]
  decide

theorem bt_indentCode_plain {t o : Str} (h : indentCode true t = some o) :
    bt o = bt t := by
  simp only [indentCode, Option.some_inj] at h
  subst h
  rw [bt_indent (bt_spacer 4), bt_append]
  simp [bt, List.countP_cons]
  intro hx
  exact absurd (congrArg Char.toNat hx) (by decide)

theorem bt_indentCode_fenced {t o : Str} (h : indentCode false t = some o) :
    6 ≤ bt o := by
  unfold indentCode at h
  cases t with
  | nil => simp at h
  | cons c rest =>
    simp only [Bool.false_eq_true, if_false, Option.some_inj] at h
    subst h
    unfold fenceGo
    rw [bt_append, bt_append]
    have h1 : bt (("```go\n").data) = 3 := by decide
    have h2 : bt (("\n```").data) = 3 := by decide
    omega

/-! ### Auxiliary lemmas -/

theorem bt_nil : bt [] = 0 := rfl

theorem bt_cons_ne {c : Char} (h : (c == btChar) = false) (l : Str) :
    bt (c :: l) = bt l := by
  simp [bt, List.countP_cons, h]

theorem nl_ne_btChar : (('\n' : Char) == btChar) = false := by decide

theorem lbracket_ne_btChar : (('[' : Char) == btChar) = false := by decide

theorem lparen_ne_btChar : ((('(') : Char) == btChar) = false := by decide

theorem space_ne_btChar : ((' ' : Char) == btChar) = false := by decide

theorem bt_cons (c : Char) (l : Str) :
    bt (c :: l) = (if c == btChar then 1 else 0) + bt l := by
  simp [bt, List.countP_cons]
  omega

theorem takeWhile_all_append {p : Char → Bool} {l t : Str} {x : Char}
    (hl : ∀ c ∈ l, p c = true) (hx : p x = false) :
    List.takeWhile p (l ++ x :: t) = l := by
  induction l with
  | nil => simp [List.takeWhile_cons, hx]
  | cons c rest ih =>
    rw [List.cons_append, List.takeWhile_cons, hl c (List.mem_cons_self c rest)]
    rw [ih (fun c' hc' => hl c' (List.mem_cons_of_mem c hc'))]
    simp

theorem foldl_choosePackage_regular (d : Str) (st : SelState) (a : Str)
    (l : List Str)
    (hr : ∀ n ∈ a :: l, n ≠ mainName ∧ n ≠ documentationName) :
    List.foldl (choosePackageStep d) st (a :: l) =
      { st with
        name := l.getLastD a, pkg := some (l.getLastD a),
        testFiles := some (l.getLastD a) } := by
  induction l generalizing st a with
  | nil =>
    have h1 := (hr a (List.mem_cons_self a [])).1
    have h2 := (hr a (List.mem_cons_self a [])).2
    simp [choosePackageStep, h1, h2]
  | cons b l' ih =>
    rw [List.foldl_cons]
    have hr' : ∀ n ∈ b :: l', n ≠ mainName ∧ n ≠ documentationName :=
      fun n hn => hr n (List.mem_cons_of_mem a hn)
    rw [ih (choosePackageStep d st a) b hr']
    have h1 := (hr a (List.mem_cons_self a _)).1
    have h2 := (hr a (List.mem_cons_self a _)).2
    have hstep : choosePackageStep d st a =
        { st with name := a, pkg := some a, testFiles := some a } := by
      simp [choosePackageStep, h1, h2]
    rw [hstep, List.getLastD_cons]

/-! ### Claims -/

/-- C1 (amended): the package-selection loop is a deterministic function of
the candidate sequence, and its result is independent of the order in which
the candidate map is iterated when there is at most one candidate; with two
or more candidates the outcome can depend on the iteration order (see the
counterexample). -/
theorem c1_selection_deterministic (d : Str) (l₁ l₂ : List Str)
    (hp : l₁.Perm l₂) (hl : l₁.length ≤ 1) :
    choosePackage d l₁ = choosePackage d l₂ := by
  match l₁, hl with
  | [], _ =>
    rw [List.Perm.eq_nil hp.symm]
  | [a], _ =>
    rw [List.singleton_perm.mp hp]

/-- C1 (counterexample): selection is not independent of the map-iteration
order.  For the candidate set `{main, foo}` the two orders yield different
`isCommand` flags (the chosen package and display name agree there, both
`foo`); for `{documentation, foo}` the two orders yield different chosen
packages and different display names. -/
theorem c1_selection_order_dependent :
    (List.Perm [mainName, ("foo").data] [("foo").data, mainName] ∧
      (choosePackage (("d").data) [mainName, ("foo").data]).isCommand =
        true ∧
      (choosePackage (("d").data) [("foo").data, mainName]).isCommand =
        false) ∧
    (List.Perm [documentationName, ("foo").data]
        [("foo").data, documentationName] ∧
      (choosePackage (("d").data) [documentationName, ("foo").data]).pkg =
        some (("foo").data) ∧
      (choosePackage (("d").data) [("foo").data, documentationName]).pkg =
        some documentationName ∧
      (choosePackage (("d").data) [documentationName, ("foo").data]).name =
        ("foo").data ∧
      (choosePackage (("d").data) [("foo").data, documentationName]).name =
        ("d").data) :=
  ⟨⟨List.Perm.swap ("foo").data mainName [], by decide, by decide⟩,
    ⟨List.Perm.swap ("foo").data documentationName [], by decide,
      by decide, by decide, by decide⟩⟩

/-- C1 (witness). -/
theorem c1_selection_deterministic_witness :
    choosePackage (("d").data) [("p").data] =
      choosePackage (("d").data) [("p").data] :=
  c1_selection_deterministic (("d").data) [("p").data] [("p").data]
    (List.Perm.refl _) (by decide)

/-- C2: every line of the synopsis matching the active heading pattern in
full is replaced by the heading marker, exactly one space, then the original
line; a line not matching in full (even if a proper substring matches) is
left unchanged. -/
theorem c2_headify_full_lines (matcher : Str → Bool) (header target : Str)
    (hh : '\n' ∉ header) :
    splitNl (headifySynopsis matcher header target) =
        (splitNl target).map (headifyLine matcher header) ∧
      ∀ ℓ : Str,
        (matcher ℓ = true → headifyLine matcher header ℓ = header ++ ' ' :: ℓ)
          ∧ (matcher ℓ = false → headifyLine matcher header ℓ = ℓ) := by
  constructor
  · unfold headifySynopsis
    apply splitNl_joinNl
    · intro hnil
      exact splitNl_ne_nil target (List.map_eq_nil_iff.mp hnil)
    · intro ℓ' hmem
      rcases List.mem_map.mp hmem with ⟨ℓ, hℓ, rfl⟩
      unfold headifyLine
      by_cases hm : matcher ℓ = true
      · rw [if_pos hm]
        intro hin
        rcases List.mem_append.mp hin with h | h
        · exact hh h
        · rcases List.mem_cons.mp h with h | h
          · exact absurd h (by decide)
          · exact not_nl_mem_of_mem_splitNl hℓ h
      · rw [if_neg hm]
        exact not_nl_mem_of_mem_splitNl hℓ
  · intro ℓ
    constructor
    · intro hm
      unfold headifyLine
      rw [if_pos hm]
    · intro hm
      unfold headifyLine
      rw [if_neg (by rw [hm]; exact Bool.false_ne_true)]

/-- C2 (witness): with the default `TitleCase1Word` strategy and marker
`####`, the line `Usage` becomes `#### Usage` while `Usage:` — which matches
the pattern only on a proper substring — is unchanged. -/
theorem c2_headify_full_lines_witness :
    splitNl (headifySynopsis matchesTitleCase1Word (("####").data)
        (("Usage\nUsage:").data)) =
      [("#### Usage").data, ("Usage:").data] := by
  rw [(c2_headify_full_lines matchesTitleCase1Word (("####").data)
    (("Usage\nUsage:").data) (by decide)).1]
  decide

/-- C4 (amended): when the candidates are all regular packages (named
neither `main` nor `documentation`), the selection loop keeps overwriting
the regular candidate, so the chosen package (and the display name) is the
*last* candidate in iteration order, and the directory is not marked as a
command. -/
theorem c4_regular_last_match_wins (d : Str) (a : Str) (l : List Str)
    (hr : ∀ n ∈ a :: l, n ≠ mainName ∧ n ≠ documentationName) :
    (choosePackage d (a :: l)).pkg = some (l.getLastD a) ∧
      (choosePackage d (a :: l)).name = l.getLastD a ∧
      (choosePackage d (a :: l)).isCommand = false := by
  unfold choosePackage
  rw [foldl_choosePackage_regular d _ a l hr]
  exact ⟨rfl, rfl, rfl⟩

/-- C4 (counterexample): with the two regular candidates `foo`, `bar` in
that order, the chosen package is `bar` — the last, not the first. -/
theorem c4_first_match_refuted :
    (choosePackage (("d").data) [("foo").data, ("bar").data]).pkg =
        some (("bar").data) ∧
      (choosePackage (("d").data) [("foo").data, ("bar").data]).pkg ≠
        some (("foo").data) := by
  decide

/-- C4 (witness). -/
theorem c4_regular_last_match_wins_witness :
    (choosePackage (("d").data) [("foo").data, ("bar").data]).pkg =
        some (("bar").data) ∧
      (choosePackage (("d").data) [("foo").data, ("bar").data]).name =
        ("bar").data ∧
      (choosePackage (("d").data) [("foo").data, ("bar").data]).isCommand =
        false :=
  c4_regular_last_match_wins (("d").data) (("foo").data) [("bar").data]
    (by decide)

/-- C5 (amended): the `.godocdown.import` override replaces the computed
path for imports with the *first* line of the file trimmed of surrounding
whitespace — not the first non-blank line; when the file starts with a
newline the resulting path is empty. -/
theorem c5_override_first_line (computed line rest tail : Str)
    (hline : '\n' ∉ line) :
    overrideImportPath computed (some ('\n' :: tail)) = [] ∧
      overrideImportPath computed (some (line ++ '\n' :: rest)) =
        trimWs line ∧
      overrideImportPath computed none = computed := by
  refine ⟨rfl, ?_, rfl⟩
  show trimWs (List.takeWhile (fun c => !(c == '\n')) (line ++ '\n' :: rest))
    = trimWs line
  rw [takeWhile_all_append ?_ (by decide)]
  intro c hc
  simp only [Bool.not_eq_true', beq_eq_false_iff_ne, ne_eq]
  exact fun hceq => hline (hceq ▸ hc)

/-- C5 (counterexample): an override file starting with a blank line yields
the empty import path, not its first non-blank line `foo/bar`. -/
theorem c5_blank_line_refuted :
    overrideImportPath (("mod/pkg").data) (some (("\nfoo/bar\n").data)) = []
      ∧ overrideImportPath (("mod/pkg").data)
          (some (("\nfoo/bar\n").data)) ≠ ("foo/bar").data := by
  decide

/-- C5 (witness). -/
theorem c5_override_first_line_witness :
    overrideImportPath (("m").data) (some ('\n' :: ("x").data)) = [] ∧
      overrideImportPath (("m").data) (some (((" foo ").data) ++
        '\n' :: ("bar").data)) = trimWs ((" foo ").data) ∧
      overrideImportPath (("m").data) none = ("m").data :=
  c5_override_first_line (("m").data) ((" foo ").data) (("bar").data)
    (("x").data) (by decide)

/-- C6 (amended): example-name splitting is total; `Foo_bar_baz` splits into
owner `Foo` and qualifier `" (bar baz)"` — parenthesized with a *leading
space* — and `Foo` splits into owner `Foo` and empty qualifier. -/
theorem c6_exampleNames_split :
    exampleNames (("Foo_bar_baz").data) =
        ((("Foo").data), ((" (bar baz)").data)) ∧
      exampleNames (("Foo").data) = ((("Foo").data), []) := by
  decide

/-- C6 (counterexample): the qualifier produced for `Foo_bar_baz` is not
`"(bar baz)"` (it carries a leading space). -/
theorem c6_qualifier_refuted :
    (exampleNames (("Foo_bar_baz").data)).2 ≠ ("(bar baz)").data := by
  decide

/-- C7: the `-no-funcs` filtering step empties the package's function list
and every type's function and method lists, and changes nothing else: the
package doc, constants, variables, and each type's name, declaration, doc,
constants and variables are preserved. -/
theorem c7_stripFuncs_frame (p : Package) :
    (stripFuncs p).funcs = [] ∧
      (stripFuncs p).types.map TypeD.funcs =
        List.replicate p.types.length [] ∧
      (stripFuncs p).types.map TypeD.methods =
        List.replicate p.types.length [] ∧
      (stripFuncs p).doc = p.doc ∧
      (stripFuncs p).name = p.name ∧
      (stripFuncs p).consts = p.consts ∧
      (stripFuncs p).vars = p.vars ∧
      (stripFuncs p).types.map TypeD.name = p.types.map TypeD.name ∧
      (stripFuncs p).types.map TypeD.declSrc = p.types.map TypeD.declSrc ∧
      (stripFuncs p).types.map TypeD.doc = p.types.map TypeD.doc ∧
      (stripFuncs p).types.map TypeD.consts = p.types.map TypeD.consts ∧
      (stripFuncs p).types.map TypeD.vars = p.types.map TypeD.vars ∧
      (stripFuncs p).types.length = p.types.length := by
  refine ⟨rfl, ?_, ?_, rfl, rfl, rfl, rfl, ?_, ?_, ?_, ?_, ?_, ?_⟩ <;>
    simp only [stripFuncs, List.map_map, List.length_map]
  · rw [show (TypeD.funcs ∘ fun t : TypeD =>
        { t with funcs := [], methods := [] }) = fun _ => ([] : List Func)
      from rfl]
    exact List.map_const' p.types []
  · rw [show (TypeD.methods ∘ fun t : TypeD =>
        { t with funcs := [], methods := [] }) = fun _ => ([] : List Func)
      from rfl]
    exact List.map_const' p.types []
  all_goals exact List.map_congr_left (fun t _ => rfl)

/-- C8: evaluating the output step of `main` at a failing `os.Create`
(e.g. `-output` pointing into a non-existent directory) shows the error is
silently swallowed: the run still exits with code 0, writes no diagnostic,
writes no file — contradicting the documented policy that an output-write
failure aborts with a message and a non-zero exit. -/
theorem c8_output_error_swallowed :
    writeOutput (("out.md").data) (("# docs").data) true =
      ⟨0, [], [], false⟩ := by
  decide

/-- C9 (counterexample): a printed example source of length exactly 6 that
starts with `{` — `"{    }"` — satisfies the claimed length bound, yet
fenced-mode rendering still fails: the slice leaves an empty string and
`indentCode` indexes its first character. -/
theorem c9_length_six_fails :
    renderExampleCode false (("{    }").data) = none ∧
      6 ≤ (("{    }").data).length := by
  decide

/-- C9 (amended): for sources starting with `{`, the slice
`code[3:len-3]` is in bounds exactly when the length is at least 6, and a
shorter such source always fails; the empty source always fails (the
`code[0]` index).  In plain mode, length ≥ 6 is also sufficient for
`{`-sources and any non-empty non-`{` source renders.  In fenced mode,
rendering additionally requires the dedented (brace-stripped) code to be
non-empty, because `indentCode` indexes its first character. -/
theorem c9_renderExampleCode_domain :
    (∀ (plain : Bool) (s : Str), s.head? = some '{' → ¬ 6 ≤ s.length →
        renderExampleCode plain s = none) ∧
      (∀ plain : Bool, renderExampleCode plain [] = none) ∧
      (∀ s : Str, s.head? = some '{' → 6 ≤ s.length →
        (renderExampleCode true s).isSome = true) ∧
      (∀ (c : Char) (rest : Str), (c == '{') = false →
        (renderExampleCode true (c :: rest)).isSome = true) ∧
      (∀ s : Str, s.head? = some '{' → 6 ≤ s.length →
        dedent ((s.drop 3).take (s.length - 6)) ≠ [] →
        (renderExampleCode false s).isSome = true) ∧
      (∀ (c : Char) (rest : Str), (c == '{') = false →
        dedent (c :: rest) ≠ [] →
        (renderExampleCode false (c :: rest)).isSome = true) := by
  refine ⟨?_, ?_, ?_, ?_, ?_, ?_⟩
  · intro plain s hh hlen
    cases s with
    | nil => rfl
    | cons c rest =>
      rw [List.head?_cons, Option.some_inj] at hh
      subst hh
      simp only [renderExampleCode]
      rw [if_pos (by decide), if_neg hlen]
  · intro plain
    rfl
  · intro s hh hlen
    cases s with
    | nil => simp at hlen
    | cons c rest =>
      rw [List.head?_cons, Option.some_inj] at hh
      subst hh
      simp only [renderExampleCode]
      rw [if_pos (by decide), if_pos hlen]
      rfl
  · intro c rest hc
    simp only [renderExampleCode]
    rw [if_neg (by simp [hc])]
    rfl
  · intro s hh hlen hne
    cases s with
    | nil => simp at hlen
    | cons c rest =>
      rw [List.head?_cons, Option.some_inj] at hh
      subst hh
      simp only [renderExampleCode]
      rw [if_pos (by decide), if_pos hlen]
      rcases hd : dedent ((('{' :: rest).drop 3).take
          (('{' :: rest).length - 6)) with _ | ⟨x, xs⟩
      · exact absurd hd hne
      · rfl
  · intro c rest hc hne
    simp only [renderExampleCode]
    rw [if_neg (by simp [hc])]
    rcases hd : dedent (c :: rest) with _ | ⟨x, xs⟩
    · exact absurd hd hne
    · rfl

/-- C9 (witness). -/
theorem c9_renderExampleCode_domain_witness :
    renderExampleCode false (("{ab}").data) = none ∧
      (renderExampleCode true (("{abcd}").data)).isSome = true ∧
      (renderExampleCode false (("{abcdef}").data)).isSome = true := by
  refine ⟨?_, ?_, ?_⟩
  · exact c9_renderExampleCode_domain.1 false (("{ab}").data) (by decide)
      (by decide)
  · exact c9_renderExampleCode_domain.2.2.1 (("{abcd}").data) (by decide)
      (by decide)
  · exact c9_renderExampleCode_domain.2.2.2.2.1 (("{abcdef}").data)
      (by decide) (by decide) (by decide)

/-- C10: in fenced (non-plain) mode `indentCode` is defined for every
non-empty input and panics (models as `none`) exactly on the empty string;
in plain mode it is total, the empty string included. -/
theorem c10_indentCode_domain :
    (∀ s : Str, (indentCode true s).isSome = true) ∧
      (∀ s : Str, s ≠ [] → (indentCode false s).isSome = true) ∧
      indentCode false [] = none := by
  refine ⟨fun s => rfl, ?_, rfl⟩
  intro s hs
  cases s with
  | nil => exact absurd rfl hs
  | cons c rest => rfl

theorem renderValueSection_plain_bt_zero (l : List Value) :
    ∀ o : Str, renderValueSection true l = some o →
      (l.map valueBt).sum = 0 → bt o = 0 := by
  induction l with
  | nil =>
    intro o h _
    rw [show renderValueSection true [] = some [] from rfl,
      Option.some_inj] at h
    subst h
    rfl
  | cons v rest ih =>
    intro o h hsum
    have hic : indentCode true v.declSrc =
        some (indent (v.declSrc ++ ['\n']) (spacer 4)) := rfl
    rcases hr : renderValueSection true rest with _ | r
    · simp only [renderValueSection, hic, hr] at h
      exact absurd h (by simp)
    · simp only [renderValueSection, hic, hr, Option.some_inj] at h
      subst h
      simp only [List.map_cons, List.sum_cons, valueBt] at hsum
      have hrest := ih r hr (by omega)
      have hdoc := bt_filterText v.doc
      simp [bt_append, bt_cons, bt_nil, bt_indent (bt_spacer 4),
        nl_ne_btChar, formatIndent, hdoc, hrest]
      omega

theorem renderFunctionSection_plain_bt_zero (hdr : Str)
    (exs : Option (List Example)) (hexs : exs = none ∨ exs = some [])
    (hhdr : bt hdr = 0) (l : List Func) :
    ∀ o : Str, renderFunctionSection true hdr exs l = some o →
      (l.map funcBt).sum = 0 → bt o = 0 := by
  induction l with
  | nil =>
    intro o h _
    rw [show renderFunctionSection true hdr exs [] = some [] from rfl,
      Option.some_inj] at h
    subst h
    rfl
  | cons f rest ih =>
    intro o h hsum
    have hic : indentCode true f.declSrc =
        some (indent (f.declSrc ++ ['\n']) (spacer 4)) := rfl
    have hre : renderExamples true (funcExamplesFor exs f.name) = some [] := by
      rcases hexs with rfl | rfl <;> rfl
    rcases hr : renderFunctionSection true hdr exs rest with _ | r
    · simp only [renderFunctionSection, hic, hre, hr] at h
      exact absurd h (by simp)
    · simp only [renderFunctionSection, hic, hre, hr, Option.some_inj] at h
      subst h
      simp only [List.map_cons, List.sum_cons, funcBt] at hsum
      have hrest := ih r hr (by omega)
      have hdoc := bt_filterText f.doc
      have hrv : bt f.recv = 0 := by omega
      have hl1 : bt ((" <a name='").data) = 0 := by decide
      have hl2 : bt (("'></a> func ").data) = 0 := by decide
      have hl3 : bt ((") ").data) = 0 := by decide
      have hl4 : bt (("]()\n\n").data) = 0 := by decide
      have hrecv : bt (if f.recv.isEmpty then [' ']
          else '(' :: f.recv ++ (") ").data) = 0 := by
        cases hb : f.recv.isEmpty
        · simp only [hb, Bool.false_eq_true, if_false]
          simp [bt_cons, bt_append, lparen_ne_btChar, hl3, hrv]
        · simp only [hb, if_true]
          decide
      simp only [bt_append, bt_cons_ne nl_ne_btChar,
        bt_cons_ne lbracket_ne_btChar, bt_nil, bt_indent (bt_spacer 4),
        formatIndent, bt_filterText, hrest, hhdr, hl1, hl2, hl4, hrecv]
      omega

theorem renderTypeSection_plain_bt_zero (hdr : Str) (hhdr : bt hdr = 0)
    (l : List TypeD) :
    ∀ o : Str, renderTypeSection true hdr [] l = some o →
      (l.map typeBt).sum = 0 → bt o = 0 := by
  induction l with
  | nil =>
    intro o h _
    rw [show renderTypeSection true hdr [] [] = some [] from rfl,
      Option.some_inj] at h
    subst h
    rfl
  | cons t rest ih =>
    intro o h hsum
    have hic : indentCode true t.declSrc =
        some (indent (t.declSrc ++ ['\n']) (spacer 4)) := rfl
    have hre : renderExamples true
        (List.filter (fun e => exampleRoot e.name == t.name) []) =
          some [] := rfl
    rcases hcs : renderValueSection true t.consts with _ | cs
    · simp only [renderTypeSection, hic, hre, hcs] at h
      exact absurd h (by simp)
    rcases hvs : renderValueSection true t.vars with _ | vs
    · simp only [renderTypeSection, hic, hre, hcs, hvs] at h
      exact absurd h (by simp)
    rcases hfs : renderFunctionSection true hdr (some []) t.funcs with _ | fs
    · simp only [renderTypeSection, hic, hre, hcs, hvs, hfs] at h
      exact absurd h (by simp)
    rcases hms : renderFunctionSection true hdr none t.methods with _ | ms
    · simp only [renderTypeSection, hic, hre, hcs, hvs, hfs, hms] at h
      exact absurd h (by simp)
    rcases hrr : renderTypeSection true hdr [] rest with _ | r
    · simp only [renderTypeSection, hic, hre, hcs, hvs, hfs, hms, hrr] at h
      exact absurd h (by simp)
    simp only [renderTypeSection, hic, hre, hcs, hvs, hfs, hms, hrr,
      Option.some_inj] at h
    subst h
    simp only [List.map_cons, List.sum_cons, typeBt] at hsum
    have h1 := renderValueSection_plain_bt_zero t.consts cs hcs (by omega)
    have h2 := renderValueSection_plain_bt_zero t.vars vs hvs (by omega)
    have h3 := renderFunctionSection_plain_bt_zero hdr (some [])
      (Or.inr rfl) hhdr t.funcs fs hfs (by omega)
    have h4 := renderFunctionSection_plain_bt_zero hdr none (Or.inl rfl)
      hhdr t.methods ms hms (by omega)
    have h5 := ih r hrr (by omega)
    have hl1 : bt ((" <a name='").data) = 0 := by decide
    have hl2 : bt (("'></a>type [").data) = 0 := by decide
    have hl3 : bt (("]()\n\n").data) = 0 := by decide
    have hl4 : bt (("\n\n").data) = 0 := by decide
    simp only [bt_append, bt_cons_ne nl_ne_btChar, bt_nil,
      bt_indent (bt_spacer 4), formatIndent, bt_filterText, hhdr,
      hl1, hl2, hl3, hl4, h1, h2, h3, h4, h5]
    omega

theorem renderFunctionIndex_bt_zero (b : Bool) (l : List Func)
    (hsum : (l.map funcBt).sum = 0) : bt (renderFunctionIndex b l) = 0 := by
  induction l with
  | nil => cases b <;> rfl
  | cons f rest ih =>
    simp only [List.map_cons, List.sum_cons, funcBt] at hsum
    have hpre : bt (if b then ("    ").data else []) = 0 := by
      cases b <;> decide
    have hl1 : bt ((" - [").data) = 0 := by decide
    have hl2 : bt (("](#").data) = 0 := by decide
    have hl3 : bt (((")\n")).data) = 0 := by decide
    simp only [renderFunctionIndex, bt_append, hpre, hl1, hl2, hl3,
      ih (by omega)]
    omega

theorem renderTypeIndex_bt_zero (l : List TypeD)
    (hsum : (l.map typeBt).sum = 0) : bt (renderTypeIndex l) = 0 := by
  induction l with
  | nil => rfl
  | cons t rest ih =>
    simp only [List.map_cons, List.sum_cons, typeBt] at hsum
    have hl1 : bt ((" - [type ").data) = 0 := by decide
    have hl2 : bt (("](#").data) = 0 := by decide
    have hl3 : bt (((")\n")).data) = 0 := by decide
    have hf := renderFunctionIndex_bt_zero true t.funcs (by omega)
    simp only [renderTypeIndex, bt_append, hl1, hl2, hl3, hf,
      ih (by omega)]
    omega

theorem renderIndex_bt_zero (d : Document)
    (hf : (d.pkg.funcs.map funcBt).sum = 0)
    (ht : (d.pkg.types.map typeBt).sum = 0) : bt (renderIndex d) = 0 := by
  simp only [renderIndex, bt_append, renderFunctionIndex_bt_zero false _ hf,
    renderTypeIndex_bt_zero _ ht, bt_cons_ne nl_ne_btChar, bt_nil]

theorem renderHeader_bt_zero (d : Document) (hn : bt d.name = 0)
    (hi : bt d.importPath = 0) : bt (renderHeader d) = 0 := by
  have hl1 : bt (("# ").data) = 0 := by decide
  have hl2 : bt (("\n--\n").data) = 0 := by decide
  have hl3 : bt (("import \"").data) = 0 := by decide
  have hl4 : bt (("\"\n\n").data) = 0 := by decide
  unfold renderHeader
  split
  · simp only [bt_append, hl1, hl2, hl3, hl4, hn, hi, bt_spacer]
  · simp only [bt_append, hl1, hl2, hn, bt_nil]

theorem renderSynopsis_bt (d : Document) :
    bt (renderSynopsis d) = bt d.pkg.doc := by
  unfold renderSynopsis
  rw [bt_append, bt_headifySynopsis (by decide), formatIndent,
    bt_filterText]
  simp [bt_cons_ne nl_ne_btChar, bt_nil]

theorem renderUsage_plain_bt_zero (d : Document) (o : Str)
    (h : renderUsage true d = some o) (hex : d.examples = [])
    (hp : pkgBt d.pkg = 0) : bt o = 0 := by
  unfold pkgBt at hp
  rcases hcs : renderValueSection true d.pkg.consts with _ | cs
  · simp only [renderUsage, hcs] at h
    exact absurd h (by simp)
  rcases hvs : renderValueSection true d.pkg.vars with _ | vs
  · simp only [renderUsage, hcs, hvs] at h
    exact absurd h (by simp)
  rcases hfs : renderFunctionSection true defaultHeader (some d.examples)
      d.pkg.funcs with _ | fs
  · simp only [renderUsage, hcs, hvs, hfs] at h
    exact absurd h (by simp)
  rcases hts : renderTypeSection true defaultHeader d.examples d.pkg.types
      with _ | ts
  · simp only [renderUsage, hcs, hvs, hfs, hts] at h
    exact absurd h (by simp)
  simp only [renderUsage, hcs, hvs, hfs, hts, Option.some_inj] at h
  subst h
  rw [hex] at hfs hts
  have h1 := renderValueSection_plain_bt_zero d.pkg.consts cs hcs (by omega)
  have h2 := renderValueSection_plain_bt_zero d.pkg.vars vs hvs (by omega)
  have h3 := renderFunctionSection_plain_bt_zero defaultHeader (some [])
    (Or.inr rfl) (by decide) d.pkg.funcs fs hfs (by omega)
  have h4 := renderTypeSection_plain_bt_zero defaultHeader (by decide)
    d.pkg.types ts hts (by omega)
  have hidx := renderIndex_bt_zero d (by omega) (by omega)
  have hl1 : bt (("#### Index\n\n").data) = 0 := by decide
  simp only [bt_append, hl1, hidx, h1, h2, h3, h4]

theorem renderValueSection_fenced_bt_ge (l : List Value) :
    ∀ o : Str, renderValueSection false l = some o →
      6 * l.length ≤ bt o := by
  induction l with
  | nil =>
    intro o h
    rw [show renderValueSection false [] = some [] from rfl,
      Option.some_inj] at h
    subst h
    simp
  | cons v rest ih =>
    intro o h
    rcases hic : indentCode false v.declSrc with _ | c
    · simp only [renderValueSection, hic] at h
      exact absurd h (by simp)
    rcases hr : renderValueSection false rest with _ | r
    · simp only [renderValueSection, hic, hr] at h
      exact absurd h (by simp)
    simp only [renderValueSection, hic, hr, Option.some_inj] at h
    subst h
    have h6 := bt_indentCode_fenced hic
    have hrest := ih r hr
    simp only [bt_append, bt_cons_ne nl_ne_btChar, List.length_cons]
    omega

theorem renderFunctionSection_fenced_bt_ge (hdr : Str)
    (exs : Option (List Example)) (l : List Func) :
    ∀ o : Str, renderFunctionSection false hdr exs l = some o →
      6 * l.length ≤ bt o := by
  induction l with
  | nil =>
    intro o h
    rw [show renderFunctionSection false hdr exs [] = some [] from rfl,
      Option.some_inj] at h
    subst h
    simp
  | cons f rest ih =>
    intro o h
    rcases hic : indentCode false f.declSrc with _ | decl
    · simp only [renderFunctionSection, hic] at h
      exact absurd h (by simp)
    rcases hex : renderExamples false (funcExamplesFor exs f.name)
        with _ | exPart
    · simp only [renderFunctionSection, hic, hex] at h
      exact absurd h (by simp)
    rcases hr : renderFunctionSection false hdr exs rest with _ | r
    · simp only [renderFunctionSection, hic, hex, hr] at h
      exact absurd h (by simp)
    simp only [renderFunctionSection, hic, hex, hr, Option.some_inj] at h
    subst h
    have h6 := bt_indentCode_fenced hic
    have hrest := ih r hr
    simp only [bt_append, bt_cons_ne nl_ne_btChar,
      bt_cons_ne lbracket_ne_btChar, List.length_cons]
    omega

theorem renderTypeSection_fenced_bt_ge (hdr : Str) (exs : List Example)
    (l : List TypeD) :
    ∀ o : Str, renderTypeSection false hdr exs l = some o →
      6 * (l.map typeDeclCount).sum ≤ bt o := by
  induction l with
  | nil =>
    intro o h
    rw [show renderTypeSection false hdr exs [] = some [] from rfl,
      Option.some_inj] at h
    subst h
    simp
  | cons t rest ih =>
    intro o h
    rcases hic : indentCode false t.declSrc with _ | decl
    · simp only [renderTypeSection, hic] at h
      exact absurd h (by simp)
    rcases hex : renderExamples false
        (List.filter (fun e => exampleRoot e.name == t.name) exs)
        with _ | exPart
    · simp only [renderTypeSection, hic, hex] at h
      exact absurd h (by simp)
    rcases hcs : renderValueSection false t.consts with _ | cs
    · simp only [renderTypeSection, hic, hex, hcs] at h
      exact absurd h (by simp)
    rcases hvs : renderValueSection false t.vars with _ | vs
    · simp only [renderTypeSection, hic, hex, hcs, hvs] at h
      exact absurd h (by simp)
    rcases hfs : renderFunctionSection false hdr (some exs) t.funcs
        with _ | fs
    · simp only [renderTypeSection, hic, hex, hcs, hvs, hfs] at h
      exact absurd h (by simp)
    rcases hms : renderFunctionSection false hdr none t.methods with _ | ms
    · simp only [renderTypeSection, hic, hex, hcs, hvs, hfs, hms] at h
      exact absurd h (by simp)
    rcases hrr : renderTypeSection false hdr exs rest with _ | r
    · simp only [renderTypeSection, hic, hex, hcs, hvs, hfs, hms, hrr] at h
      exact absurd h (by simp)
    simp only [renderTypeSection, hic, hex, hcs, hvs, hfs, hms, hrr,
      Option.some_inj] at h
    subst h
    have h6 := bt_indentCode_fenced hic
    have h1 := renderValueSection_fenced_bt_ge t.consts cs hcs
    have h2 := renderValueSection_fenced_bt_ge t.vars vs hvs
    have h3 := renderFunctionSection_fenced_bt_ge hdr (some exs) t.funcs
      fs hfs
    have h4 := renderFunctionSection_fenced_bt_ge hdr none t.methods ms hms
    have h5 := ih r hrr
    simp only [bt_append, bt_cons_ne nl_ne_btChar, List.map_cons,
      List.sum_cons, typeDeclCount]
    omega

theorem renderUsage_fenced_bt_ge (d : Document) (o : Str)
    (h : renderUsage false d = some o) : 6 * numDecls d ≤ bt o := by
  rcases hcs : renderValueSection false d.pkg.consts with _ | cs
  · simp only [renderUsage, hcs] at h
    exact absurd h (by simp)
  rcases hvs : renderValueSection false d.pkg.vars with _ | vs
  · simp only [renderUsage, hcs, hvs] at h
    exact absurd h (by simp)
  rcases hfs : renderFunctionSection false defaultHeader (some d.examples)
      d.pkg.funcs with _ | fs
  · simp only [renderUsage, hcs, hvs, hfs] at h
    exact absurd h (by simp)
  rcases hts : renderTypeSection false defaultHeader d.examples d.pkg.types
      with _ | ts
  · simp only [renderUsage, hcs, hvs, hfs, hts] at h
    exact absurd h (by simp)
  simp only [renderUsage, hcs, hvs, hfs, hts, Option.some_inj] at h
  subst h
  have h1 := renderValueSection_fenced_bt_ge d.pkg.consts cs hcs
  have h2 := renderValueSection_fenced_bt_ge d.pkg.vars vs hvs
  have h3 := renderFunctionSection_fenced_bt_ge defaultHeader
    (some d.examples) d.pkg.funcs fs hfs
  have h4 := renderTypeSection_fenced_bt_ge defaultHeader d.examples
    d.pkg.types ts hts
  simp only [bt_append, numDecls]
  omega

/-- C3 (amended): for a non-command document, (i) if the document has no
examples and none of its input strings contains a backtick, rendering with
`-plain` produces output with no backtick at all — hence no triple-backtick
fence; (ii) whenever rendering without `-plain` succeeds, the output
contains at least one fenced block (six backticks) for each rendered
declaration.  The restriction to example-free documents in (i) is forced by
the counterexample: `renderExample` always wraps the example's `Output`
block in a literal ```` ``` ```` fence, even in plain mode. -/
theorem c3_plain_fence_dichotomy (d : Document)
    (hcmd : d.isCommand = false) :
    (d.examples = [] → docBt d = 0 →
        ∀ out : Str, renderDocument true d = some out → bt out = 0) ∧
      (∀ out : Str, renderDocument false d = some out →
        6 * numDecls d ≤ bt out) := by
  constructor
  · intro hex hz out hout
    unfold docBt pkgBt at hz
    rcases hu : renderUsage true d with _ | u
    · simp only [renderDocument, hcmd, Bool.false_eq_true, if_false, hu]
        at hout
      exact absurd hout (by simp)
    · simp only [renderDocument, hcmd, Bool.false_eq_true, if_false, hu,
        Option.some_inj] at hout
      subst hout
      have hh := renderHeader_bt_zero d (by omega) (by omega)
      have hs := renderSynopsis_bt d
      have hu0 := renderUsage_plain_bt_zero d u hu hex (by unfold pkgBt; omega)
      rw [bt_trimWs, bt_append, bt_append, hh, hs, hu0]
      omega
  · intro out hout
    rcases hu : renderUsage false d with _ | u
    · simp only [renderDocument, hcmd, Bool.false_eq_true, if_false, hu]
        at hout
      exact absurd hout (by simp)
    · simp only [renderDocument, hcmd, Bool.false_eq_true, if_false, hu,
        Option.some_inj] at hout
      subst hout
      have hu6 := renderUsage_fenced_bt_ge d u hu
      rw [bt_trimWs, bt_append, bt_append]
      omega

/-- C3 (counterexample): a non-command document with one non-empty
declaration and one example, none of whose input strings contains a
backtick, still renders in `-plain` mode to output containing a
triple-backtick fence (the hardcoded `Output` fence of `renderExample`). -/
theorem c3_plain_emits_fence_with_example :
    (renderDocument true docWithExample).any hasTripleBt = true := by
  decide

/-- C3 (witness). -/
theorem c3_plain_fence_dichotomy_witness :
    bt ((renderDocument true docPlainConst).getD []) = 0 ∧
      6 * numDecls docPlainConst ≤
        bt ((renderDocument false docPlainConst).getD []) := by
  constructor
  · exact (c3_plain_fence_dichotomy docPlainConst rfl).1 rfl (by decide)
      ((renderDocument true docPlainConst).getD []) rfl
  · exact (c3_plain_fence_dichotomy docPlainConst rfl).2
      ((renderDocument false docPlainConst).getD []) rfl

/-- C10 (witness). -/
theorem c10_indentCode_domain_witness :
    (indentCode true []).isSome = true ∧
      (indentCode false (("x").data)).isSome = true ∧
      indentCode false [] = none :=
  ⟨c10_indentCode_domain.1 [],
    c10_indentCode_domain.2.1 (("x").data) (by decide),
    c10_indentCode_domain.2.2⟩

end Godocdown
